import Mathlib

/-!
Shallow embedding of `src/db/db_manager.py` (class `DBManager`): a small
SQLite-backed store of paper metadata with three tables (`papers`, `tags`,
`paper_tags`) and five operations (`add_paper`, `get_paper`, `search_papers`,
`add_tags`, `update_paper`).

Python strings are embedded as `List Char` (`Str`); SQLite rows as Lean
structures; the database as a `Store` holding the three tables.  SQLite's
`LIKE` operator, comma join/split of the `authors` field, and the binary
string comparison used for `publication_date >= ?` are embedded directly.
-/

/-- Python strings / SQLite TEXT values, embedded as character lists. -/
abbrev Str := List Char

/-- ASCII lower-casing of one character, as SQLite's default `LIKE` applies
to pattern and text (case folding for `A`-`Z` only). -/
def lowerA (c : Char) : Char :=
  if 'A' ≤ c ∧ c ≤ 'Z' then Char.ofNat (c.toNat + 32) else c

/-- SQLite binary (code-point-wise lexicographic) string comparison `a <= b`,
as used by `publication_date >= ?` in `search_papers` (ISO-8601 strings). -/
def strLe : Str → Str → Bool
  | [], _ => true
  | _ :: _, [] => false
  | a :: as, b :: bs => if a = b then strLe as bs else decide (a < b)

/-- Python `','.join(xs)`: concatenate with a comma between elements
(`db_manager.py` line 80 and line 215). -/
def joinComma : List Str → Str
  | [] => []
  | [a] => a
  | a :: b :: rest => a ++ ',' :: joinComma (b :: rest)

/-- Python `s.split(',')`: split on every comma; the split of the empty
string is `[""]` (`db_manager.py` lines 115 and 156). -/
def splitComma : Str → List Str
  | [] => [[]]
  | c :: rest =>
    if c = ',' then [] :: splitComma rest
    else
      match splitComma rest with
      | [] => [[c]]
      | g :: gs => (c :: g) :: gs

/-- SQLite `LIKE` matching with explicit fuel (structural recursion so that
concrete instances evaluate): `%` matches any sequence, `_` matches exactly
one character, anything else matches one character up to ASCII case. -/
def likeMatchF : Nat → Str → Str → Bool
  | 0, _, _ => false
  | _ + 1, [], s => s.isEmpty
  | fuel + 1, p :: ps, s =>
    if p = '%' then
      likeMatchF fuel ps s ||
        (match s with
         | [] => false
         | _ :: s2 => likeMatchF fuel (p :: ps) s2)
    else
      match s with
      | [] => false
      | c :: s2 =>
        if p = '_' then likeMatchF fuel ps s2
        else decide (lowerA p = lowerA c) && likeMatchF fuel ps s2

/-- SQLite `text LIKE pattern` (enough fuel for the whole match). -/
def likeMatch (p s : Str) : Bool :=
  likeMatchF (p.length + s.length + 1) p s

/-- The pattern `f"%{query}%"` that `search_papers` builds at line 140:
the query is interpolated with no escaping of `%` or `_`. -/
def mkLikePattern (q : Str) : Str := '%' :: (q ++ ['%'])

/-- Spec-side predicate (from the spec's words, not the code): `q` occurs in
`s` as a case-insensitive contiguous substring. -/
def substringCI (q s : Str) : Bool :=
  decide ((q.map lowerA) <:+: (s.map lowerA))

/-- The query contains neither `LIKE` wildcard character. -/
def noWildcards (q : Str) : Prop := '%' ∉ q ∧ '_' ∉ q

instance : DecidablePred noWildcards := fun q => by
  unfold noWildcards; infer_instance

/-! ## Data model: the three tables -/

/-- One row of the `papers` table (schema at `db_manager.py` lines 17-35).
`authors` is the stored comma-joined TEXT column. -/
structure PaperRow where
  id : Str
  title : Str
  authors : Str
  abstract : Option Str
  source : Str
  publication_date : Str
  access_date : Str
  pdf_path : Option Str
  bibtex_path : Option Str
  endnote_path : Option Str
  is_paywalled : Bool
  summary : Option Str
  implications : Option Str
  topic_category : Option Str
  error_log : Option Str
deriving DecidableEq

/-- One row of the `tags` table: AUTOINCREMENT integer id, unique name. -/
structure TagRow where
  id : Nat
  name : Str
deriving DecidableEq

/-- The database: the three tables, plus the next AUTOINCREMENT id for
`tags`.  `paper_tags` rows are `(paper_id, tag_id)` pairs. -/
structure Store where
  papers : List PaperRow
  tags : List TagRow
  paper_tags : List (Str × Nat)
  nextTagId : Nat
deriving DecidableEq

/-- The caller-supplied dict passed to `add_paper`.  `error_log` may be
present in the dict but is never read by `add_paper`. -/
structure PaperInput where
  id : Str
  title : Str
  authors : List Str
  abstract : Option Str
  source : Str
  publication_date : Str
  pdf_path : Option Str
  bibtex_path : Option Str
  endnote_path : Option Str
  is_paywalled : Bool
  summary : Option Str
  implications : Option Str
  topic_category : Option Str
  error_log : Option Str
deriving DecidableEq

/-- The dict returned by `get_paper` / `search_papers`: all row columns with
`authors` split back into a list, plus the attached `tags` names. -/
structure PaperRecord where
  id : Str
  title : Str
  authors : List Str
  abstract : Option Str
  source : Str
  publication_date : Str
  access_date : Str
  pdf_path : Option Str
  bibtex_path : Option Str
  endnote_path : Option Str
  is_paywalled : Bool
  summary : Option Str
  implications : Option Str
  topic_category : Option Str
  error_log : Option Str
  tags : List Str
deriving DecidableEq

/-! ## The five operations -/

/-- The row built by `add_paper`'s INSERT (lines 70-92): `authors` joined
with commas, `access_date` stamped with the current time, and `error_log`
absent from the column list, hence NULL. -/
def rowOfInput (now : Str) (p : PaperInput) : PaperRow :=
  { id := p.id
    title := p.title
    authors := joinComma p.authors
    abstract := p.abstract
    source := p.source
    publication_date := p.publication_date
    access_date := now
    pdf_path := p.pdf_path
    bibtex_path := p.bibtex_path
    endnote_path := p.endnote_path
    is_paywalled := p.is_paywalled
    summary := p.summary
    implications := p.implications
    topic_category := p.topic_category
    error_log := none }

/-- `DBManager.add_paper` (lines 64-102).  A duplicate primary key makes the
INSERT raise `sqlite3.IntegrityError`, which the `except sqlite3.Error`
clause turns into `False` with nothing committed; otherwise the row is
inserted and committed.  `now` stands for `datetime.now().isoformat()`. -/
def add_paper (s : Store) (now : Str) (p : PaperInput) : Bool × Store :=
  if s.papers.any (fun r => decide (r.id = p.id)) then (false, s)
  else (true, { s with papers := s.papers ++ [rowOfInput now p] })

/-- Resolve a tag id to its name (`SELECT` on the `tags` table). -/
def tagNameOfId (s : Store) (tid : Nat) : Option Str :=
  (s.tags.find? (fun t => decide (t.id = tid))).map (fun t => t.name)

/-- The tag names attached to one paper: the join
`tags JOIN paper_tags ON tags.id = paper_tags.tag_id WHERE paper_id = ?`
(lines 118-125), scanning `paper_tags` in table order. -/
def tagsFor (s : Store) (pid : Str) : List Str :=
  s.paper_tags.filterMap (fun pt => if pt.1 = pid then tagNameOfId s pt.2 else none)

/-- Build the result dict from a row: split `authors` on commas and attach
the tag names (lines 112-126 and 153-167). -/
def toRecord (s : Store) (r : PaperRow) : PaperRecord :=
  { id := r.id
    title := r.title
    authors := splitComma r.authors
    abstract := r.abstract
    source := r.source
    publication_date := r.publication_date
    access_date := r.access_date
    pdf_path := r.pdf_path
    bibtex_path := r.bibtex_path
    endnote_path := r.endnote_path
    is_paywalled := r.is_paywalled
    summary := r.summary
    implications := r.implications
    topic_category := r.topic_category
    error_log := r.error_log
    tags := tagsFor s r.id }

/-- `DBManager.get_paper` (lines 104-128): fetch the row by primary key;
`None` when absent. -/
def get_paper (s : Store) (pid : Str) : Option PaperRecord :=
  (s.papers.find? (fun r => decide (r.id = pid))).map (toRecord s)

/-- Python truthiness of the `if source:` / `if from_date:` guards (lines
142 and 146): `None` and the empty string both leave the filter off. -/
def truthy : Option Str → Option Str
  | some x => if x = [] then none else some x
  | none => none

/-- `abstract LIKE pattern` where `abstract` may be NULL: `NULL LIKE p` is
NULL, which does not satisfy the WHERE clause. -/
def likeOpt (pat : Str) (v : Option Str) : Bool :=
  match v with
  | some a => likeMatch pat a
  | none => false

/-- The WHERE clause of `search_papers` (lines 136-148) applied to one row:
`(title LIKE %q% OR abstract LIKE %q%) AND source = ? AND
publication_date >= ?`, the last two only when their argument is truthy. -/
def rowMatches (query : Str) (src fd : Option Str) (r : PaperRow) : Bool :=
  (likeMatch (mkLikePattern query) r.title || likeOpt (mkLikePattern query) r.abstract)
  && (match src with
      | some x => decide (r.source = x)
      | none => true)
  && (match fd with
      | some d => strLe d r.publication_date
      | none => true)

/-- `DBManager.search_papers` (lines 130-170): filter the `papers` table in
table order by the built WHERE clause, and build each result dict exactly as
`get_paper` does. -/
def search_papers (s : Store) (query : Str) (src fd : Option Str) : List PaperRecord :=
  (s.papers.filter (rowMatches query (truthy src) (truthy fd))).map (toRecord s)

/-- `INSERT OR IGNORE INTO tags (name) VALUES (?)` (line 180): insert a new
row with the next AUTOINCREMENT id unless the unique name already exists. -/
def insertTagIfAbsent (s : Store) (tag : Str) : Store :=
  if s.tags.any (fun t => decide (t.name = tag)) then s
  else { s with
         tags := s.tags ++ [{ id := s.nextTagId, name := tag }]
         nextTagId := s.nextTagId + 1 }

/-- `SELECT id FROM tags WHERE name = ?` (line 183). -/
def tagIdOf (s : Store) (tag : Str) : Option Nat :=
  (s.tags.find? (fun t => decide (t.name = tag))).map (fun t => t.id)

/-- One iteration of the `add_tags` loop (lines 178-190): ensure the tag
row, resolve its id, then `INSERT OR IGNORE` the `(paper_id, tag_id)`
association (ignored when the composite primary key already exists). -/
def addOneTag (s : Store) (pid : Str) (tag : Str) : Store :=
  let s1 := insertTagIfAbsent s tag
  match tagIdOf s1 tag with
  | some tid =>
    if (pid, tid) ∈ s1.paper_tags then s1
    else { s1 with paper_tags := s1.paper_tags ++ [(pid, tid)] }
  | none => s1

/-- `DBManager.add_tags` (lines 172-199) on the path where no storage error
occurs: run the loop over all tags, then commit. -/
def add_tags (s : Store) (pid : Str) (tags : List Str) : Store :=
  tags.foldl (fun acc t => addOneTag acc pid t) s

/-- The `add_tags` loop run against an uncommitted working state `w`, with
`err k` saying whether the storage layer raises `sqlite3.Error` during
iteration `k`; `none` means the loop aborted into the `except` clause. -/
def add_tags_run (pid : Str) (err : Nat → Bool) : List Str → Nat → Store → Option Store
  | [], _, w => some w
  | t :: ts, k, w =>
    if err k then none
    else add_tags_run pid err ts (k + 1) (addOneTag w pid t)

/-- `DBManager.add_tags` with explicit storage failures: `conn.commit()`
publishes the working state only when the whole loop succeeded; on error the
`except` clause rolls back, leaving the committed state untouched. -/
def add_tags_withErr (s : Store) (pid : Str) (tags : List Str) (err : Nat → Bool) : Store :=
  match add_tags_run pid err tags 0 s with
  | some w => w
  | none => s

/-- The update values `update_paper` can receive from Python: a text-or-NULL
value, a list (only meaningful for `authors`, which is re-joined with
commas), or a boolean (for `is_paywalled`).  Values are assumed to respect
the column constraints of the schema. -/
inductive UpdVal where
  | vstr : Option Str → UpdVal
  | vlist : List Str → UpdVal
  | vbool : Bool → UpdVal
deriving DecidableEq

/-- The `valid_fields` allow-list of `update_paper` (lines 203-207). -/
def valid_fields : List Str :=
  ["title", "authors", "abstract", "pdf_path", "bibtex_path",
   "endnote_path", "is_paywalled", "summary", "implications",
   "topic_category", "error_log"].map String.data

/-- Apply one `field = ?` assignment of the UPDATE statement to a row;
`authors` goes through `','.join` (line 215). -/
def applyUpdate (r : PaperRow) (f : Str) (v : UpdVal) : PaperRow :=
  if f = "title".data then
    match v with
    | .vstr (some t) => { r with title := t }
    | _ => r
  else if f = "authors".data then
    match v with
    | .vlist as => { r with authors := joinComma as }
    | _ => r
  else if f = "abstract".data then
    match v with
    | .vstr o => { r with abstract := o }
    | _ => r
  else if f = "pdf_path".data then
    match v with
    | .vstr o => { r with pdf_path := o }
    | _ => r
  else if f = "bibtex_path".data then
    match v with
    | .vstr o => { r with bibtex_path := o }
    | _ => r
  else if f = "endnote_path".data then
    match v with
    | .vstr o => { r with endnote_path := o }
    | _ => r
  else if f = "is_paywalled".data then
    match v with
    | .vbool b => { r with is_paywalled := b }
    | _ => r
  else if f = "summary".data then
    match v with
    | .vstr o => { r with summary := o }
    | _ => r
  else if f = "implications".data then
    match v with
    | .vstr o => { r with implications := o }
    | _ => r
  else if f = "topic_category".data then
    match v with
    | .vstr o => { r with topic_category := o }
    | _ => r
  else if f = "error_log".data then
    match v with
    | .vstr o => { r with error_log := o }
    | _ => r
  else r

/-- Apply all retained `SET` assignments, in order. -/
def applyUpdates (r : PaperRow) (ufs : List (Str × UpdVal)) : PaperRow :=
  ufs.foldl (fun acc u => applyUpdate acc u.1 u.2) r

/-- `DBManager.update_paper` (lines 201-240): keep only allow-listed
fields, fail without touching the store when none remain, otherwise run the
UPDATE (which touches exactly the rows whose id matches) and report
success even when no row matched. -/
def update_paper (s : Store) (pid : Str) (updates : List (Str × UpdVal)) : Bool × Store :=
  let ufs := updates.filter (fun u => decide (u.1 ∈ valid_fields))
  if ufs = [] then (false, s)
  else
    (true,
     { s with
       papers := s.papers.map (fun r => if r.id = pid then applyUpdates r ufs else r) })

/-! ## Connection events (for the connection-scoping claim) -/

/-- A connection lifecycle event: `sqlite3.connect` / `conn.close()`. -/
inductive ConnEvent where
  | opened : ConnEvent
  | closed : ConnEvent
deriving DecidableEq

/-- Every opened connection was closed by the end of the operation. -/
def balancedConns (t : List ConnEvent) : Bool :=
  decide (t.count ConnEvent.opened = t.count ConnEvent.closed)

/-- `add_paper` with its connection events: `connect` at line 67, and the
`finally: conn.close()` at lines 101-102 runs on the success path and the
caught-error path alike. -/
def add_paper_traced (s : Store) (now : Str) (p : PaperInput) :
    (Bool × Store) × List ConnEvent :=
  (add_paper s now p, [ConnEvent.opened, ConnEvent.closed])

/-- `get_paper` with its connection events: `connect` at line 106, and no
`conn.close()` anywhere in lines 104-128 — the function returns (line 126 or
128) with the connection still open. -/
def get_paper_traced (s : Store) (pid : Str) :
    Option PaperRecord × List ConnEvent :=
  (get_paper s pid, [ConnEvent.opened])

/-- `search_papers` with its connection events on the modeled (error-free)
path: `connect` at line 133 and `conn.close()` at line 169 before return. -/
def search_papers_traced (s : Store) (query : Str) (src fd : Option Str) :
    List PaperRecord × List ConnEvent :=
  (search_papers s query src fd, [ConnEvent.opened, ConnEvent.closed])

/-- `add_tags` with its connection events: `connect` at line 174, and the
`finally: conn.close()` at lines 198-199 runs whether or not the loop
aborted into the `except` clause. -/
def add_tags_traced (s : Store) (pid : Str) (tags : List Str) (err : Nat → Bool) :
    Store × List ConnEvent :=
  (add_tags_withErr s pid tags err, [ConnEvent.opened, ConnEvent.closed])

/-- `update_paper` with its connection events: the empty-filter early return
at line 218 happens before any `connect`; otherwise `connect` at line 221
and the `finally: conn.close()` at lines 239-240. -/
def update_paper_traced (s : Store) (pid : Str) (updates : List (Str × UpdVal)) :
    (Bool × Store) × List ConnEvent :=
  (update_paper s pid updates,
   if updates.filter (fun u => decide (u.1 ∈ valid_fields)) = [] then []
   else [ConnEvent.opened, ConnEvent.closed])

/-! ## Schema invariant -/

/-- The state invariant SQLite's constraints keep: unique tag names
(UNIQUE), unique tag ids (PRIMARY KEY), unique `(paper_id, tag_id)` pairs
(composite PRIMARY KEY), and every tag id below the AUTOINCREMENT cursor. -/
def WF (s : Store) : Prop :=
  (s.tags.map (fun t => t.name)).Nodup ∧
  (s.tags.map (fun t => t.id)).Nodup ∧
  s.paper_tags.Nodup ∧
  ∀ t ∈ s.tags, t.id < s.nextTagId

instance : DecidablePred WF := fun s => by
  unfold WF; infer_instance

/-! ## Claim-side definitions and concrete test data -/

/-- Spec-side: the (optional) abstract contains the query as a
case-insensitive substring; an absent abstract matches nothing. -/
def matchesAbstract (q : Str) (o : Option Str) : Bool :=
  match o with
  | some a => substringCI q a
  | none => false

/-- Spec-side search filter (from the spec's words, not the code): title OR
abstract contains the query as a case-insensitive substring, AND the source
matches exactly when a source filter is on, AND the publication date is
lexicographically at least the bound when a date filter is on. -/
def searchSpecPred (q : Str) (src fd : Option Str) (r : PaperRow) : Bool :=
  (substringCI q r.title || matchesAbstract q r.abstract)
  && (match src with
      | some x => decide (r.source = x)
      | none => true)
  && (match fd with
      | some d => strLe d r.publication_date
      | none => true)

/-- A fixed timestamp standing for `datetime.now().isoformat()`. -/
def now0 : Str := "2024-05-01T12:00:00".data

/-- The freshly initialized database: all tables empty. -/
def storeE : Store := { papers := [], tags := [], paper_tags := [], nextTagId := 1 }

/-- A concrete paper input used by the witnesses. -/
def inputA : PaperInput :=
  { id := "paper-1".data
    title := "Graph Neural Networks".data
    authors := ["Ada Lovelace".data, "Alan Turing".data]
    abstract := some ("A survey of message passing.".data)
    source := "arxiv".data
    publication_date := "2023-01-01".data
    pdf_path := none
    bibtex_path := none
    endnote_path := none
    is_paywalled := false
    summary := none
    implications := none
    topic_category := none
    error_log := some ("previous failure".data) }

/-- A second concrete input, with an empty authors list. -/
def inputB : PaperInput :=
  { inputA with id := "paper-2".data, authors := [], error_log := none }

/-- The store holding exactly `inputA`'s paper. -/
def storeA : Store := (add_paper storeE now0 inputA).2

/-- The store holding `inputA`'s and `inputB`'s papers. -/
def storeAB : Store := (add_paper storeA now0 inputB).2

/-- A row whose title is `"axb"` (for the wildcard-leakage claims). -/
def rowAxb : PaperRow :=
  { id := "w1".data
    title := "axb".data
    authors := "X".data
    abstract := none
    source := "arxiv".data
    publication_date := "2024-01-01".data
    access_date := now0
    pdf_path := none
    bibtex_path := none
    endnote_path := none
    is_paywalled := false
    summary := none
    implications := none
    topic_category := none
    error_log := none }

/-- A row whose title is `"ba"`. -/
def rowBa : PaperRow := { rowAxb with id := "w2".data, title := "ba".data }

/-- A row whose title is `"axxb"`. -/
def rowAxxb : PaperRow := { rowAxb with id := "w3".data, title := "axxb".data }

/-- A store with three papers titled `"axb"`, `"ba"`, `"axxb"`. -/
def storeW : Store :=
  { papers := [rowAxb, rowBa, rowAxxb], tags := [], paper_tags := [], nextTagId := 1 }

/-- An updates dict with one allow-listed and one unknown field. -/
def updHack : List (Str × UpdVal) :=
  [("title".data, UpdVal.vstr (some ("New".data))),
   ("hacker_field".data, UpdVal.vstr (some ("x".data)))]

/-- An updates dict with no allow-listed field. -/
def updBogus : List (Str × UpdVal) := [("bogus".data, UpdVal.vstr none)]

/-! ## Lemmas about the string primitives -/

theorem splitComma_append (a s : Str) (h : ',' ∉ a) :
    splitComma (a ++ ',' :: s) = a :: splitComma s := by
  induction a with
  | nil => simp [splitComma]
  | cons c a ih =>
    have hc : c ≠ ',' := by rintro rfl; exact h (List.mem_cons_self _ _)
    have h2 : ',' ∉ a := fun hm => h (List.mem_cons_of_mem _ hm)
    simp only [List.cons_append, splitComma, List.append_eq, if_neg hc, ih h2]

theorem splitComma_of_not_mem (a : Str) (h : ',' ∉ a) : splitComma a = [a] := by
  induction a with
  | nil => rfl
  | cons c a ih =>
    have hc : c ≠ ',' := by rintro rfl; exact h (List.mem_cons_self _ _)
    have h2 : ',' ∉ a := fun hm => h (List.mem_cons_of_mem _ hm)
    simp only [splitComma, if_neg hc, ih h2]

theorem splitComma_joinComma (as : List Str) (hne : as ≠ [])
    (h : ∀ a ∈ as, ',' ∉ a) : splitComma (joinComma as) = as := by
  induction as with
  | nil => exact absurd rfl hne
  | cons a as ih =>
    cases as with
    | nil => exact splitComma_of_not_mem a (h a (List.mem_cons_self _ _))
    | cons b bs =>
      rw [joinComma, splitComma_append a _ (h a (List.mem_cons_self _ _)),
        ih (List.cons_ne_nil _ _) (fun x hx => h x (List.mem_cons_of_mem _ hx))]

theorem likeMatchF_pct_nil (n : Nat) (ps : Str) :
    likeMatchF (n + 1) ('%' :: ps) [] = likeMatchF n ps [] := by
  simp [likeMatchF]

theorem likeMatchF_pct_cons (n : Nat) (ps : Str) (c : Char) (s : Str) :
    likeMatchF (n + 1) ('%' :: ps) (c :: s) =
      (likeMatchF n ps (c :: s) || likeMatchF n ('%' :: ps) s) := by
  simp [likeMatchF]

theorem likeMatchF_lit_nil (n : Nat) (p : Char) (ps : Str) (h : p ≠ '%') :
    likeMatchF (n + 1) (p :: ps) [] = false := by
  simp [likeMatchF, h]

theorem likeMatchF_us_cons (n : Nat) (ps : Str) (c : Char) (s : Str) :
    likeMatchF (n + 1) ('_' :: ps) (c :: s) = likeMatchF n ps s := by
  simp [likeMatchF]

theorem likeMatchF_lit_cons (n : Nat) (p : Char) (ps : Str) (c : Char) (s : Str)
    (h1 : p ≠ '%') (h2 : p ≠ '_') :
    likeMatchF (n + 1) (p :: ps) (c :: s) =
      (decide (lowerA p = lowerA c) && likeMatchF n ps s) := by
  simp [likeMatchF, h1, h2]

theorem likeMatchF_irrel (n : Nat) : ∀ (m : Nat) (p s : Str),
    p.length + s.length < n → p.length + s.length < m →
    likeMatchF n p s = likeMatchF m p s := by
  induction n with
  | zero => intro m p s hn _; exact absurd hn (by omega)
  | succ k ih =>
    intro m p s hn hm
    cases m with
    | zero => exact absurd hm (by omega)
    | succ j =>
      cases p with
      | nil => simp [likeMatchF]
      | cons c ps =>
        simp only [List.length_cons] at hn hm
        by_cases hc : c = '%'
        · subst hc
          cases s with
          | nil =>
            rw [likeMatchF_pct_nil, likeMatchF_pct_nil]
            exact ih j ps [] (by simp only [List.length_nil]; omega)
              (by simp only [List.length_nil]; omega)
          | cons d s2 =>
            simp only [List.length_cons] at hn hm
            rw [likeMatchF_pct_cons, likeMatchF_pct_cons,
              ih j ps (d :: s2) (by simp only [List.length_cons]; omega)
                (by simp only [List.length_cons]; omega),
              ih j ('%' :: ps) s2 (by simp only [List.length_cons]; omega)
                (by simp only [List.length_cons]; omega)]
        · cases s with
          | nil => rw [likeMatchF_lit_nil _ _ _ hc, likeMatchF_lit_nil _ _ _ hc]
          | cons d s2 =>
            simp only [List.length_cons] at hn hm
            by_cases hu : c = '_'
            · subst hu
              rw [likeMatchF_us_cons, likeMatchF_us_cons,
                ih j ps s2 (by omega) (by omega)]
            · rw [likeMatchF_lit_cons _ _ _ _ _ hc hu, likeMatchF_lit_cons _ _ _ _ _ hc hu,
                ih j ps s2 (by omega) (by omega)]

theorem likeMatch_eq_F (p s : Str) (n : Nat) (h : p.length + s.length < n) :
    likeMatch p s = likeMatchF n p s :=
  likeMatchF_irrel (p.length + s.length + 1) n p s (by omega) h

theorem likeMatch_nil_pat (s : Str) : likeMatch [] s = s.isEmpty := by
  cases s <;> rfl

theorem likeMatch_pct_nil (ps : Str) :
    likeMatch ('%' :: ps) [] = likeMatch ps [] := by
  rw [likeMatch_eq_F ('%' :: ps) [] (ps.length + ([] : Str).length + 1 + 1)
      (by simp only [List.length_cons, List.length_nil]; omega),
    likeMatchF_pct_nil,
    ← likeMatch_eq_F ps [] _ (by omega)]

theorem likeMatch_pct_cons (ps : Str) (c : Char) (s : Str) :
    likeMatch ('%' :: ps) (c :: s) =
      (likeMatch ps (c :: s) || likeMatch ('%' :: ps) s) := by
  rw [likeMatch_eq_F ('%' :: ps) (c :: s) (ps.length + (c :: s).length + 1 + 1)
      (by simp only [List.length_cons]; omega),
    likeMatchF_pct_cons,
    ← likeMatch_eq_F ps (c :: s) _ (by omega),
    ← likeMatch_eq_F ('%' :: ps) s _ (by simp only [List.length_cons]; omega)]

theorem likeMatch_lit_nil (p : Char) (ps : Str) (h : p ≠ '%') :
    likeMatch (p :: ps) [] = false := by
  rw [likeMatch_eq_F (p :: ps) [] (ps.length + 1 + 1)
      (by simp only [List.length_cons, List.length_nil]; omega),
    likeMatchF_lit_nil _ _ _ h]

theorem likeMatch_us_cons (ps : Str) (c : Char) (s : Str) :
    likeMatch ('_' :: ps) (c :: s) = likeMatch ps s := by
  rw [likeMatch_eq_F ('_' :: ps) (c :: s) (ps.length + s.length + 2 + 1)
      (by simp only [List.length_cons]; omega),
    likeMatchF_us_cons,
    ← likeMatch_eq_F ps s (ps.length + s.length + 2) (by omega)]

theorem likeMatch_lit_cons (p : Char) (ps : Str) (c : Char) (s : Str)
    (h1 : p ≠ '%') (h2 : p ≠ '_') :
    likeMatch (p :: ps) (c :: s) =
      (decide (lowerA p = lowerA c) && likeMatch ps s) := by
  rw [likeMatch_eq_F (p :: ps) (c :: s) (ps.length + s.length + 2 + 1)
      (by simp only [List.length_cons]; omega),
    likeMatchF_lit_cons _ _ _ _ _ h1 h2,
    ← likeMatch_eq_F ps s (ps.length + s.length + 2) (by omega)]

theorem likeMatch_pct_iff (ps : Str) (s : Str) :
    likeMatch ('%' :: ps) s = true ↔
      ∃ s1 s2, s = s1 ++ s2 ∧ likeMatch ps s2 = true := by
  induction s with
  | nil =>
    rw [likeMatch_pct_nil]
    constructor
    · intro h; exact ⟨[], [], rfl, h⟩
    · rintro ⟨s1, s2, he, h⟩
      rw [List.nil_eq, List.append_eq_nil] at he
      obtain ⟨rfl, rfl⟩ := he
      exact h
  | cons c s ih =>
    rw [likeMatch_pct_cons, Bool.or_eq_true, ih]
    constructor
    · rintro (h | ⟨s1, s2, rfl, h⟩)
      · exact ⟨[], c :: s, rfl, h⟩
      · exact ⟨c :: s1, s2, rfl, h⟩
    · rintro ⟨s1, s2, he, h⟩
      cases s1 with
      | nil =>
        left
        simp only [List.nil_append] at he
        rw [← he] at h
        exact h
      | cons d s1 =>
        right
        rw [List.cons_append] at he
        injection he with he1 he2
        exact ⟨s1, s2, he2, h⟩

theorem likeMatch_one_pct (s : Str) : likeMatch ['%'] s = true := by
  induction s with
  | nil => rw [likeMatch_pct_nil, likeMatch_nil_pat]; rfl
  | cons c s ih => rw [likeMatch_pct_cons, ih, Bool.or_true]

theorem likeMatch_lit_block (q : Str) (hp : '%' ∉ q) (hu : '_' ∉ q) (ps : Str) :
    ∀ s : Str, likeMatch (q ++ ps) s = true ↔
      ∃ s1 s2, s = s1 ++ s2 ∧ s1.map lowerA = q.map lowerA ∧ likeMatch ps s2 = true := by
  induction q with
  | nil =>
    intro s
    simp only [List.nil_append, List.map_nil]
    constructor
    · intro h; exact ⟨[], s, rfl, rfl, h⟩
    · rintro ⟨s1, s2, rfl, h1, h⟩
      rw [List.map_eq_nil_iff] at h1
      subst h1
      rw [List.nil_append]
      exact h
  | cons c q ihq =>
    have hc1 : c ≠ '%' := fun hc => hp (hc ▸ List.mem_cons_self _ _)
    have hc2 : c ≠ '_' := fun hc => hu (hc ▸ List.mem_cons_self _ _)
    have hp2 : '%' ∉ q := fun hm => hp (List.mem_cons_of_mem _ hm)
    have hu2 : '_' ∉ q := fun hm => hu (List.mem_cons_of_mem _ hm)
    intro s
    cases s with
    | nil =>
      rw [List.cons_append, likeMatch_lit_nil _ _ hc1]
      constructor
      · intro h; exact absurd h (by simp)
      · rintro ⟨s1, s2, he, h1, h⟩
        rw [List.nil_eq, List.append_eq_nil] at he
        obtain ⟨rfl, rfl⟩ := he
        simp only [List.map_nil, List.map_cons] at h1
        exact absurd h1 (by simp)
    | cons d s =>
      rw [List.cons_append, likeMatch_lit_cons _ _ _ _ hc1 hc2, Bool.and_eq_true,
        decide_eq_true_iff, ihq hp2 hu2 s]
      constructor
      · rintro ⟨hcd, s1, s2, rfl, h1, h⟩
        refine ⟨d :: s1, s2, rfl, ?_, h⟩
        simp only [List.map_cons, h1, ← hcd]
      · rintro ⟨s1, s2, he, h1, h⟩
        cases s1 with
        | nil =>
          simp only [List.map_nil, List.map_cons] at h1
          exact absurd h1 (by simp)
        | cons e s1 =>
          rw [List.cons_append] at he
          injection he with he1 he2
          simp only [List.map_cons, List.cons_eq_cons] at h1
          subst he1
          exact ⟨h1.1.symm, s1, s2, he2, h1.2, h⟩

theorem likeMatch_pattern_iff (q s : Str) (h : noWildcards q) :
    likeMatch (mkLikePattern q) s = true ↔
      ∃ s1 s2 s3, s = s1 ++ s2 ++ s3 ∧ s2.map lowerA = q.map lowerA := by
  obtain ⟨hp, hu⟩ := h
  rw [mkLikePattern, likeMatch_pct_iff]
  constructor
  · rintro ⟨s1, t, rfl, h⟩
    rw [likeMatch_lit_block q hp hu ['%'] t] at h
    obtain ⟨s2, s3, rfl, hmap, _⟩ := h
    exact ⟨s1, s2, s3, by rw [List.append_assoc], hmap⟩
  · rintro ⟨s1, s2, s3, rfl, hmap⟩
    refine ⟨s1, s2 ++ s3, by rw [List.append_assoc], ?_⟩
    rw [likeMatch_lit_block q hp hu ['%'] (s2 ++ s3)]
    exact ⟨s2, s3, rfl, hmap, likeMatch_one_pct s3⟩

theorem substringCI_iff (q s : Str) :
    substringCI q s = true ↔
      ∃ s1 s2 s3, s = s1 ++ s2 ++ s3 ∧ s2.map lowerA = q.map lowerA := by
  rw [substringCI, decide_eq_true_iff]
  constructor
  · rintro ⟨u, v, huv⟩
    rw [List.append_assoc] at huv
    obtain ⟨l1, l2, rfl, hm1, hm2⟩ := List.map_eq_append_iff.mp huv.symm
    obtain ⟨l21, l22, rfl, hm21, hm22⟩ := List.map_eq_append_iff.mp hm2
    exact ⟨l1, l21, l22, by rw [List.append_assoc], hm21⟩
  · rintro ⟨s1, s2, s3, rfl, hmap⟩
    exact ⟨s1.map lowerA, s3.map lowerA, by
      simp only [List.map_append, hmap]⟩

theorem likeMatch_eq_substringCI (q s : Str) (h : noWildcards q) :
    likeMatch (mkLikePattern q) s = substringCI q s := by
  rw [Bool.eq_iff_iff, likeMatch_pattern_iff q s h, substringCI_iff]

theorem likeMatch_pct_mid_iff (q1 q2 : Str) (h1 : noWildcards q1)
    (h2 : noWildcards q2) (s : Str) :
    likeMatch (mkLikePattern (q1 ++ '%' :: q2)) s = true ↔
      ∃ s1 s2 s3 s4 s5, s = s1 ++ s2 ++ s3 ++ s4 ++ s5 ∧
        s2.map lowerA = q1.map lowerA ∧ s4.map lowerA = q2.map lowerA := by
  obtain ⟨hp1, hu1⟩ := h1
  obtain ⟨hp2, hu2⟩ := h2
  have hsplit : mkLikePattern (q1 ++ '%' :: q2) = '%' :: (q1 ++ '%' :: (q2 ++ ['%'])) := by
    rw [mkLikePattern, List.append_assoc, List.cons_append]
  rw [hsplit, likeMatch_pct_iff]
  constructor
  · rintro ⟨s1, t, rfl, h⟩
    rw [likeMatch_lit_block q1 hp1 hu1 _ t] at h
    obtain ⟨s2, t2, rfl, hm1, h⟩ := h
    rw [likeMatch_pct_iff] at h
    obtain ⟨s3, t3, rfl, h⟩ := h
    rw [likeMatch_lit_block q2 hp2 hu2 _ t3] at h
    obtain ⟨s4, s5, rfl, hm2, _⟩ := h
    exact ⟨s1, s2, s3, s4, s5, by simp only [List.append_assoc], hm1, hm2⟩
  · rintro ⟨s1, s2, s3, s4, s5, rfl, hm1, hm2⟩
    refine ⟨s1, s2 ++ (s3 ++ (s4 ++ s5)), by simp only [List.append_assoc], ?_⟩
    rw [likeMatch_lit_block q1 hp1 hu1 _ _]
    refine ⟨s2, s3 ++ (s4 ++ s5), rfl, hm1, ?_⟩
    rw [likeMatch_pct_iff]
    refine ⟨s3, s4 ++ s5, rfl, ?_⟩
    rw [likeMatch_lit_block q2 hp2 hu2 _ _]
    exact ⟨s4, s5, rfl, hm2, likeMatch_one_pct s5⟩

theorem likeOpt_eq_spec (q : Str) (h : noWildcards q) (o : Option Str) :
    likeOpt (mkLikePattern q) o = matchesAbstract q o := by
  cases o with
  | none => rfl
  | some a => simp only [likeOpt, matchesAbstract, likeMatch_eq_substringCI _ _ h]

theorem rowMatches_eq_spec (q : Str) (src fd : Option Str) (r : PaperRow)
    (h : noWildcards q) :
    rowMatches q src fd r = searchSpecPred q src fd r := by
  unfold rowMatches searchSpecPred
  rw [likeMatch_eq_substringCI _ _ h, likeOpt_eq_spec q h]

theorem add_paper_not_dup (s : Store) (now : Str) (p : PaperInput)
    (h : (add_paper s now p).1 = true) :
    s.papers.any (fun r => decide (r.id = p.id)) = false := by
  by_contra hc
  rw [Bool.not_eq_false] at hc
  rw [add_paper, if_pos hc] at h
  exact Bool.false_ne_true h

theorem add_paper_store_of_success (s : Store) (now : Str) (p : PaperInput)
    (h : (add_paper s now p).1 = true) :
    (add_paper s now p).2 = { s with papers := s.papers ++ [rowOfInput now p] } := by
  have hnd := add_paper_not_dup s now p h
  rw [add_paper, if_neg (by rw [hnd]; exact Bool.false_ne_true)]

theorem add_paper_success_get (s : Store) (now : Str) (p : PaperInput)
    (h : (add_paper s now p).1 = true) :
    get_paper (add_paper s now p).2 p.id =
      some (toRecord (add_paper s now p).2 (rowOfInput now p)) := by
  have hnd := add_paper_not_dup s now p h
  rw [add_paper_store_of_success s now p h, get_paper]
  have hf1 : s.papers.find? (fun r => decide (r.id = p.id)) = none := by
    rw [List.find?_eq_none]
    intro r hr
    rw [List.any_eq_false] at hnd
    exact hnd r hr
  have hf2 : [rowOfInput now p].find? (fun r => decide (r.id = p.id)) =
      some (rowOfInput now p) :=
    List.find?_cons_of_pos _ (by rw [rowOfInput]; simp)
  show (({ s with papers := s.papers ++ [rowOfInput now p] } : Store).papers.find?
      (fun r => decide (r.id = p.id))).map _ = _
  rw [show ({ s with papers := s.papers ++ [rowOfInput now p] } : Store).papers =
      s.papers ++ [rowOfInput now p] from rfl, List.find?_append, hf1, hf2]
  rfl

theorem tagIdOf_congr (s1 s2 : Store) (x : Str) (h : s1.tags = s2.tags) :
    tagIdOf s1 x = tagIdOf s2 x := by
  rw [tagIdOf, tagIdOf, h]

theorem tagIdOf_elim (s : Store) (x : Str) (tid : Nat) (h : tagIdOf s x = some tid) :
    ∃ y, s.tags.find? (fun t => decide (t.name = x)) = some y ∧ y.id = tid := by
  rw [tagIdOf] at h
  exact Option.map_eq_some'.mp h

theorem find?_append_of_some {α : Type} (l l2 : List α) (p : α → Bool) (a : α)
    (h : l.find? p = some a) : (l ++ l2).find? p = some a := by
  rw [List.find?_append, h]
  rfl

theorem insertTag_papers (s : Store) (t : Str) :
    (insertTagIfAbsent s t).papers = s.papers := by
  rw [insertTagIfAbsent]
  split_ifs <;> rfl

theorem insertTag_paper_tags (s : Store) (t : Str) :
    (insertTagIfAbsent s t).paper_tags = s.paper_tags := by
  rw [insertTagIfAbsent]
  split_ifs <;> rfl

theorem insertTag_tags_extends (s : Store) (t : Str) :
    ∃ tnew, (insertTagIfAbsent s t).tags = s.tags ++ tnew := by
  rw [insertTagIfAbsent]
  split_ifs
  · exact ⟨[], by simp⟩
  · exact ⟨[{ id := s.nextTagId, name := t }], rfl⟩

theorem insertTag_finds (s : Store) (t : Str) :
    ∃ tid, tagIdOf (insertTagIfAbsent s t) t = some tid := by
  rw [insertTagIfAbsent]
  split_ifs with hany
  · obtain ⟨x, hx, hpx⟩ := List.any_eq_true.mp hany
    cases hf : s.tags.find? (fun y => decide (y.name = t)) with
    | none =>
      rw [List.find?_eq_none] at hf
      exact absurd hpx (hf x hx)
    | some y => exact ⟨y.id, by rw [tagIdOf, hf]; rfl⟩
  · have hf : s.tags.find? (fun y => decide (y.name = t)) = none := by
      rw [List.find?_eq_none]
      intro x hx hpx
      exact hany (List.any_eq_true.mpr ⟨x, hx, hpx⟩)
    refine ⟨s.nextTagId, ?_⟩
    rw [tagIdOf]
    show ((s.tags ++ [({ id := s.nextTagId, name := t } : TagRow)]).find?
      (fun y => decide (y.name = t))).map _ = _
    rw [List.find?_append, hf]
    simp [List.find?]

theorem addOneTag_tags (s : Store) (pid t : Str) :
    (addOneTag s pid t).tags = (insertTagIfAbsent s t).tags := by
  obtain ⟨tid, htid⟩ := insertTag_finds s t
  simp only [addOneTag, htid]
  split_ifs <;> rfl

theorem addOneTag_papers (s : Store) (pid t : Str) :
    (addOneTag s pid t).papers = s.papers := by
  obtain ⟨tid, htid⟩ := insertTag_finds s t
  simp only [addOneTag, htid]
  split_ifs <;> exact insertTag_papers s t

theorem addOneTag_paper_tags_extends (s : Store) (pid t : Str) :
    ∃ pnew, (addOneTag s pid t).paper_tags = s.paper_tags ++ pnew := by
  obtain ⟨tid, htid⟩ := insertTag_finds s t
  simp only [addOneTag, htid]
  split_ifs
  · exact ⟨[], by simp [insertTag_paper_tags]⟩
  · exact ⟨[(pid, tid)], by
      show (insertTagIfAbsent s t).paper_tags ++ [(pid, tid)] = _
      rw [insertTag_paper_tags]⟩

theorem tagIdOf_mono (s : Store) (pid t x : Str) (tid : Nat)
    (h : tagIdOf s x = some tid) : tagIdOf (addOneTag s pid t) x = some tid := by
  obtain ⟨y, hy, hyid⟩ := tagIdOf_elim s x tid h
  obtain ⟨tnew, hext⟩ := insertTag_tags_extends s t
  rw [tagIdOf, addOneTag_tags, hext, find?_append_of_some _ _ _ _ hy]
  rw [Option.map_some']
  exact congrArg some hyid

theorem pair_mono (s : Store) (pid t : Str) (pr : Str × Nat)
    (h : pr ∈ s.paper_tags) : pr ∈ (addOneTag s pid t).paper_tags := by
  obtain ⟨pnew, hext⟩ := addOneTag_paper_tags_extends s pid t
  rw [hext]
  exact List.mem_append_left _ h

theorem addOneTag_establishes (s : Store) (pid t : Str) :
    ∃ tid, tagIdOf (addOneTag s pid t) t = some tid ∧
      (pid, tid) ∈ (addOneTag s pid t).paper_tags := by
  obtain ⟨tid, htid⟩ := insertTag_finds s t
  refine ⟨tid, ?_, ?_⟩
  · rw [tagIdOf_congr _ _ t (addOneTag_tags s pid t), htid]
  · simp only [addOneTag, htid]
    split_ifs with hmem
    · exact hmem
    · exact List.mem_append_right _ (List.mem_singleton.mpr rfl)

theorem addOneTag_of_present (s : Store) (pid t : Str) (tid : Nat)
    (h1 : tagIdOf s t = some tid) (h2 : (pid, tid) ∈ s.paper_tags) :
    addOneTag s pid t = s := by
  obtain ⟨y, hy, hyid⟩ := tagIdOf_elim s t tid h1
  have hins : insertTagIfAbsent s t = s := by
    have hp := List.find?_some hy
    rw [insertTagIfAbsent, if_pos]
    rw [List.any_eq_true]
    exact ⟨y, List.mem_of_find?_eq_some hy, hp⟩
  simp only [addOneTag, hins, h1]
  rw [if_pos h2]

theorem insertTag_WF (s : Store) (t : Str) (h : WF s) : WF (insertTagIfAbsent s t) := by
  obtain ⟨hnames, hids, hpairs, hbound⟩ := h
  rw [insertTagIfAbsent]
  split_ifs with hany
  · exact ⟨hnames, hids, hpairs, hbound⟩
  · unfold WF
    refine ⟨?_, ?_, hpairs, ?_⟩
    · show (((s.tags ++ [({ id := s.nextTagId, name := t } : TagRow)]).map
        (fun x => x.name)).Nodup)
      rw [List.map_append, List.nodup_append]
      refine ⟨hnames, List.nodup_singleton _, ?_⟩
      intro a ha hb
      simp only [List.map_cons, List.map_nil, List.mem_singleton] at hb
      subst hb
      obtain ⟨y, hy, hyname⟩ := List.mem_map.mp ha
      exact hany (List.any_eq_true.mpr ⟨y, hy, by rw [decide_eq_true_iff]; exact hyname⟩)
    · show (((s.tags ++ [({ id := s.nextTagId, name := t } : TagRow)]).map
        (fun x => x.id)).Nodup)
      rw [List.map_append, List.nodup_append]
      refine ⟨hids, List.nodup_singleton _, ?_⟩
      intro a ha hb
      simp only [List.map_cons, List.map_nil, List.mem_singleton] at hb
      subst hb
      obtain ⟨y, hy, hyid⟩ := List.mem_map.mp ha
      exact absurd (hbound y hy) (by rw [hyid]; exact lt_irrefl _)
    · intro x hx
      show x.id < s.nextTagId + 1
      rw [List.mem_append] at hx
      cases hx with
      | inl h2 => exact lt_trans (hbound x h2) (Nat.lt_succ_self _)
      | inr h2 =>
        rw [List.mem_singleton] at h2
        subst h2
        exact Nat.lt_succ_self _

theorem addOneTag_WF (s : Store) (pid t : Str) (h : WF s) : WF (addOneTag s pid t) := by
  have h1 := insertTag_WF s t h
  obtain ⟨tid, htid⟩ := insertTag_finds s t
  simp only [addOneTag, htid]
  split_ifs with hmem
  · exact h1
  · obtain ⟨hnames, hids, hpairs, hbound⟩ := h1
    unfold WF
    refine ⟨hnames, hids, ?_, hbound⟩
    show ((insertTagIfAbsent s t).paper_tags ++ [(pid, tid)]).Nodup
    rw [List.nodup_append]
    refine ⟨hpairs, List.nodup_singleton _, ?_⟩
    intro a ha hb
    rw [List.mem_singleton] at hb
    subst hb
    exact hmem ha

theorem add_tags_WF (pid : Str) (ts : List Str) :
    ∀ s : Store, WF s → WF (add_tags s pid ts) := by
  induction ts with
  | nil => intro s h; exact h
  | cons t ts ih =>
    intro s h
    rw [add_tags, List.foldl_cons]
    exact ih (addOneTag s pid t) (addOneTag_WF s pid t h)

theorem add_tags_papers (pid : Str) (ts : List Str) :
    ∀ s : Store, (add_tags s pid ts).papers = s.papers := by
  induction ts with
  | nil => intro s; rfl
  | cons t ts ih =>
    intro s
    rw [add_tags, List.foldl_cons]
    show (add_tags (addOneTag s pid t) pid ts).papers = s.papers
    rw [ih (addOneTag s pid t), addOneTag_papers]

theorem add_tags_preserves (pid pid2 : Str) (ts : List Str) :
    ∀ (s : Store) (x : Str) (tid : Nat),
      tagIdOf s x = some tid → (pid2, tid) ∈ s.paper_tags →
      tagIdOf (add_tags s pid ts) x = some tid ∧
        (pid2, tid) ∈ (add_tags s pid ts).paper_tags := by
  induction ts with
  | nil => intro s x tid h1 h2; exact ⟨h1, h2⟩
  | cons t ts ih =>
    intro s x tid h1 h2
    rw [add_tags, List.foldl_cons]
    exact ih (addOneTag s pid t) x tid (tagIdOf_mono s pid t x tid h1)
      (pair_mono s pid t (pid2, tid) h2)

theorem add_tags_establishes (pid x : Str) (ts : List Str) :
    ∀ s : Store, x ∈ ts →
      ∃ tid, tagIdOf (add_tags s pid ts) x = some tid ∧
        (pid, tid) ∈ (add_tags s pid ts).paper_tags := by
  induction ts with
  | nil => intro s h; exact absurd h (List.not_mem_nil x)
  | cons t ts ih =>
    intro s hmem
    rw [add_tags, List.foldl_cons]
    cases List.mem_cons.mp hmem with
    | inl heq =>
      subst heq
      obtain ⟨tid, h1, h2⟩ := addOneTag_establishes s pid x
      exact ⟨tid, add_tags_preserves pid pid ts (addOneTag s pid x) x tid h1 h2⟩
    | inr hmem2 => exact ih (addOneTag s pid t) hmem2

theorem add_tags_idem_of_all_present (pid : Str) (ts : List Str) :
    ∀ s : Store,
      (∀ t ∈ ts, ∃ tid, tagIdOf s t = some tid ∧ (pid, tid) ∈ s.paper_tags) →
      add_tags s pid ts = s := by
  induction ts with
  | nil => intro s _; rfl
  | cons t ts ih =>
    intro s h
    obtain ⟨tid, h1, h2⟩ := h t (List.mem_cons_self _ _)
    rw [add_tags, List.foldl_cons, addOneTag_of_present s pid t tid h1 h2]
    exact ih s (fun u hu => h u (List.mem_cons_of_mem _ hu))

theorem add_tags_run_ok (pid : Str) (err : Nat → Bool) :
    ∀ (ts : List Str) (k : Nat) (w : Store),
      (∀ i, i < ts.length → err (k + i) = false) →
      add_tags_run pid err ts k w = some (add_tags w pid ts) := by
  intro ts
  induction ts with
  | nil => intro k w _; rfl
  | cons t ts ih =>
    intro k w h
    have h0 : err k = false := by
      have := h 0 (by simp)
      rwa [Nat.add_zero] at this
    rw [add_tags_run, if_neg (by rw [h0]; exact Bool.false_ne_true)]
    rw [ih (k + 1) (addOneTag w pid t) (fun i hi => by
      have h2 := h (i + 1) (by simpa using Nat.succ_lt_succ hi)
      rwa [show k + (i + 1) = k + 1 + i by omega] at h2)]
    rfl

theorem add_tags_run_err (pid : Str) (err : Nat → Bool) :
    ∀ (ts : List Str) (k : Nat) (w : Store),
      (∃ i, i < ts.length ∧ err (k + i) = true) →
      add_tags_run pid err ts k w = none := by
  intro ts
  induction ts with
  | nil =>
    rintro k w ⟨i, hi, _⟩
    exact absurd hi (by simp)
  | cons t ts ih =>
    rintro k w ⟨i, hi, he⟩
    by_cases h0 : err k = true
    · rw [add_tags_run, if_pos h0]
    · rw [add_tags_run, if_neg h0]
      apply ih (k + 1)
      cases i with
      | zero =>
        rw [Nat.add_zero] at he
        exact absurd he h0
      | succ i2 =>
        refine ⟨i2, ?_, ?_⟩
        · simp only [List.length_cons] at hi
          omega
        · rwa [show k + 1 + i2 = k + (i2 + 1) by omega]

theorem applyUpdate_frame (r : PaperRow) (f : Str) (v : UpdVal) :
    (applyUpdate r f v).id = r.id ∧ (applyUpdate r f v).source = r.source ∧
    (applyUpdate r f v).publication_date = r.publication_date ∧
    (applyUpdate r f v).access_date = r.access_date := by
  unfold applyUpdate
  by_cases h1 : f = "title".data
  · rw [if_pos h1]
    rcases v with (_ | t) | as | b <;> exact ⟨rfl, rfl, rfl, rfl⟩
  rw [if_neg h1]
  by_cases h2 : f = "authors".data
  · rw [if_pos h2]
    rcases v with (_ | t) | as | b <;> exact ⟨rfl, rfl, rfl, rfl⟩
  rw [if_neg h2]
  by_cases h3 : f = "abstract".data
  · rw [if_pos h3]
    rcases v with (_ | t) | as | b <;> exact ⟨rfl, rfl, rfl, rfl⟩
  rw [if_neg h3]
  by_cases h4 : f = "pdf_path".data
  · rw [if_pos h4]
    rcases v with (_ | t) | as | b <;> exact ⟨rfl, rfl, rfl, rfl⟩
  rw [if_neg h4]
  by_cases h5 : f = "bibtex_path".data
  · rw [if_pos h5]
    rcases v with (_ | t) | as | b <;> exact ⟨rfl, rfl, rfl, rfl⟩
  rw [if_neg h5]
  by_cases h6 : f = "endnote_path".data
  · rw [if_pos h6]
    rcases v with (_ | t) | as | b <;> exact ⟨rfl, rfl, rfl, rfl⟩
  rw [if_neg h6]
  by_cases h7 : f = "is_paywalled".data
  · rw [if_pos h7]
    rcases v with (_ | t) | as | b <;> exact ⟨rfl, rfl, rfl, rfl⟩
  rw [if_neg h7]
  by_cases h8 : f = "summary".data
  · rw [if_pos h8]
    rcases v with (_ | t) | as | b <;> exact ⟨rfl, rfl, rfl, rfl⟩
  rw [if_neg h8]
  by_cases h9 : f = "implications".data
  · rw [if_pos h9]
    rcases v with (_ | t) | as | b <;> exact ⟨rfl, rfl, rfl, rfl⟩
  rw [if_neg h9]
  by_cases h10 : f = "topic_category".data
  · rw [if_pos h10]
    rcases v with (_ | t) | as | b <;> exact ⟨rfl, rfl, rfl, rfl⟩
  rw [if_neg h10]
  by_cases h11 : f = "error_log".data
  · rw [if_pos h11]
    rcases v with (_ | t) | as | b <;> exact ⟨rfl, rfl, rfl, rfl⟩
  rw [if_neg h11]
  exact ⟨rfl, rfl, rfl, rfl⟩

theorem applyUpdates_frame (ufs : List (Str × UpdVal)) :
    ∀ r : PaperRow,
      (applyUpdates r ufs).id = r.id ∧ (applyUpdates r ufs).source = r.source ∧
      (applyUpdates r ufs).publication_date = r.publication_date ∧
      (applyUpdates r ufs).access_date = r.access_date := by
  induction ufs with
  | nil => intro r; exact ⟨rfl, rfl, rfl, rfl⟩
  | cons u ufs ih =>
    intro r
    have heq : applyUpdates r (u :: ufs) = applyUpdates (applyUpdate r u.1 u.2) ufs := rfl
    rw [heq]
    obtain ⟨h1, h2, h3, h4⟩ := ih (applyUpdate r u.1 u.2)
    obtain ⟨g1, g2, g3, g4⟩ := applyUpdate_frame r u.1 u.2
    exact ⟨h1.trans g1, h2.trans g2, h3.trans g3, h4.trans g4⟩

/-- C4.  Update allow-list and empty-update failure: `update_paper` keeps
only the entries whose field name is in the fixed allow-list (dropping the
rest silently), leaves every other paper's row untouched, leaves the four
non-allow-listed columns (`id`, `source`, `publication_date`, `access_date`)
of every row untouched, and when no entry is allow-listed it returns `False`
with the store completely unchanged. -/
theorem C4_update_allowlist (s : Store) (pid : Str) (us : List (Str × UpdVal)) :
    update_paper s pid us =
      update_paper s pid (us.filter (fun u => decide (u.1 ∈ valid_fields))) ∧
    (∀ r ∈ s.papers, r.id ≠ pid → r ∈ (update_paper s pid us).2.papers) ∧
    ((∀ u ∈ us, u.1 ∉ valid_fields) → update_paper s pid us = (false, s)) ∧
    (∀ r2 ∈ (update_paper s pid us).2.papers, ∃ r ∈ s.papers,
      r2.id = r.id ∧ r2.source = r.source ∧
      r2.publication_date = r.publication_date ∧ r2.access_date = r.access_date) := by
  refine ⟨?_, ?_, ?_, ?_⟩
  · have hfilt : (us.filter (fun u => decide (u.1 ∈ valid_fields))).filter
        (fun u => decide (u.1 ∈ valid_fields)) =
        us.filter (fun u => decide (u.1 ∈ valid_fields)) := by
      rw [List.filter_filter]
      apply List.filter_congr
      intro x _
      rw [Bool.and_self]
    simp only [update_paper, hfilt]
  · intro r hr hne
    simp only [update_paper]
    split_ifs with h
    · exact hr
    · exact List.mem_map.mpr ⟨r, hr, by rw [if_neg hne]⟩
  · intro hinv
    have hnil : us.filter (fun u => decide (u.1 ∈ valid_fields)) = [] := by
      rw [List.filter_eq_nil_iff]
      intro u hu
      simpa using hinv u hu
    simp only [update_paper, hnil]
    rw [if_pos trivial]
  · intro r2 hr2
    simp only [update_paper] at hr2
    split_ifs at hr2 with h
    · exact ⟨r2, hr2, rfl, rfl, rfl, rfl⟩
    · obtain ⟨r, hr, heq⟩ := List.mem_map.mp hr2
      by_cases hid : r.id = pid
      · rw [← heq, if_pos hid]
        obtain ⟨f1, f2, f3, f4⟩ := applyUpdates_frame _ r
        exact ⟨r, hr, f1, f2, f3, f4⟩
      · rw [← heq, if_neg hid]
        exact ⟨r, hr, rfl, rfl, rfl, rfl⟩

/-! ## The claims -/

/-- C1.  Authors round-trip: for a paper whose `authors` is a non-empty
sequence of comma-free strings, a successful `add_paper` followed by
`get_paper` on the same id returns the `authors` sequence that was supplied
(comma-join then comma-split is the identity under that precondition). -/
theorem C1_authors_roundtrip (s : Store) (now : Str) (p : PaperInput)
    (h1 : p.authors ≠ []) (h2 : ∀ a ∈ p.authors, ',' ∉ a)
    (h3 : (add_paper s now p).1 = true) :
    (get_paper (add_paper s now p).2 p.id).map (fun pr => pr.authors) =
      some p.authors := by
  rw [add_paper_success_get s now p h3, Option.map_some']
  show some (splitComma (joinComma p.authors)) = _
  rw [splitComma_joinComma p.authors h1 h2]

/-- Witness for C1 at a concrete store and input. -/
theorem C1_authors_roundtrip_witness :
    (get_paper (add_paper storeE now0 inputA).2 inputA.id).map
      (fun pr => pr.authors) = some inputA.authors :=
  C1_authors_roundtrip storeE now0 inputA (by decide) (by decide) (by decide)

/-- C2.  Duplicate-id atomicity: when the store already holds a paper with
the incoming record's id, `add_paper` returns `False` (the primary-key
violation is caught, not raised) and the whole store — in particular every
field of the already-stored paper — is unchanged. -/
theorem C2_duplicate_id_atomic (s : Store) (now : Str) (p : PaperInput)
    (r : PaperRow) (hr : r ∈ s.papers) (hid : r.id = p.id) :
    add_paper s now p = (false, s) := by
  have hc : s.papers.any (fun x => decide (x.id = p.id)) = true :=
    List.any_eq_true.mpr ⟨r, hr, by rw [decide_eq_true_iff]; exact hid⟩
  rw [add_paper, if_pos hc]

/-- Witness for C2: re-adding `inputA` to the store that holds it fails. -/
theorem C2_duplicate_id_atomic_witness :
    add_paper storeA now0 inputA = (false, storeA) :=
  C2_duplicate_id_atomic storeA now0 inputA (rowOfInput now0 inputA)
    (by decide) (by decide)

/-- C3 counterexample: with the wildcard query `"a%b"`, `search_papers`
does not return exactly the papers containing `"a%b"` as a case-insensitive
substring — on `storeW` it returns the papers titled `"axb"` and `"axxb"`,
while the substring reading returns none. -/
theorem C3_search_semantics_cex :
    search_papers storeW ("a%b".data) none none ≠
      (storeW.papers.filter (searchSpecPred ("a%b".data) none none)).map
        (toRecord storeW) := by decide

/-- C3 (amended).  For every query containing no `LIKE` wildcard (`%`, `_`),
`search_papers` returns exactly the papers whose title OR abstract contains
the query as a case-insensitive substring, AND whose source equals the
`source` filter when a non-empty one is given, AND whose
`publication_date` is lexicographically at least `from_date` when a
non-empty one is given (an empty-string filter, like an absent one, turns
the filter off); in particular the empty query with no filters returns
every stored paper. -/
theorem C3_search_semantics_amended (s : Store) (q : Str) (src fd : Option Str)
    (h : noWildcards q) :
    search_papers s q src fd =
      (s.papers.filter (searchSpecPred q (truthy src) (truthy fd))).map (toRecord s) ∧
    search_papers s [] none none = s.papers.map (toRecord s) := by
  constructor
  · rw [search_papers]
    congr 1
    exact List.filter_congr (fun r _ => rowMatches_eq_spec q (truthy src) (truthy fd) r h)
  · rw [search_papers]
    have hall : ∀ r ∈ s.papers, rowMatches [] (truthy none) (truthy none) r = true := by
      intro r _
      have htitle : likeMatch (mkLikePattern ([] : Str)) r.title = true :=
        (likeMatch_pattern_iff [] r.title ⟨List.not_mem_nil _, List.not_mem_nil _⟩).mpr
          ⟨[], [], r.title, rfl, rfl⟩
      unfold rowMatches
      rw [htitle]
      rfl
    rw [List.filter_eq_self.mpr hall]

/-- Witness for C3 (amended) at a concrete store and query. -/
theorem C3_search_semantics_amended_witness :
    (search_papers storeA ("neural".data) none none =
      (storeA.papers.filter
        (searchSpecPred ("neural".data) (truthy none) (truthy none))).map
        (toRecord storeA)) ∧
    search_papers storeA ([] : Str) none none = storeA.papers.map (toRecord storeA) :=
  C3_search_semantics_amended storeA ("neural".data) none none (by decide)

/-- Witness for C4 at concrete stores and update dicts. -/
theorem C4_update_allowlist_witness :
    (update_paper storeAB ("paper-1".data) updHack =
      update_paper storeAB ("paper-1".data)
        (updHack.filter (fun u => decide (u.1 ∈ valid_fields)))) ∧
    rowOfInput now0 inputB ∈ (update_paper storeAB ("paper-1".data) updHack).2.papers ∧
    update_paper storeAB ("paper-1".data) updBogus = (false, storeAB) ∧
    (∃ r ∈ storeAB.papers,
      (rowOfInput now0 inputB).id = r.id ∧
      (rowOfInput now0 inputB).source = r.source ∧
      (rowOfInput now0 inputB).publication_date = r.publication_date ∧
      (rowOfInput now0 inputB).access_date = r.access_date) :=
  ⟨(C4_update_allowlist storeAB ("paper-1".data) updHack).1,
   (C4_update_allowlist storeAB ("paper-1".data) updHack).2.1
     (rowOfInput now0 inputB) (by decide) (by decide),
   (C4_update_allowlist storeAB ("paper-1".data) updBogus).2.2.1 (by decide),
   (C4_update_allowlist storeAB ("paper-1".data) updHack).2.2.2
     (rowOfInput now0 inputB) (by decide)⟩

theorem length_filter_key_eq_one {α β : Type} [DecidableEq β] (f : α → β) :
    ∀ (l : List α) (b : β), (l.map f).Nodup → (∃ y ∈ l, f y = b) →
      (l.filter (fun a => decide (f a = b))).length = 1 := by
  intro l
  induction l with
  | nil =>
    rintro b _ ⟨y, hy, _⟩
    exact absurd hy (List.not_mem_nil y)
  | cons c l ih =>
    rintro b hnd ⟨y, hy, hfy⟩
    rw [List.map_cons, List.nodup_cons] at hnd
    rw [List.filter_cons]
    by_cases hc : f c = b
    · rw [if_pos (by rw [decide_eq_true_iff]; exact hc)]
      have hnil : l.filter (fun a => decide (f a = b)) = [] := by
        rw [List.filter_eq_nil_iff]
        intro u hu hdu
        rw [decide_eq_true_iff] at hdu
        have hufc : f u = f c := by rw [hdu, hc]
        exact hnd.1 (hufc ▸ List.mem_map_of_mem f hu)
      rw [hnil]
      rfl
    · rw [if_neg (by rw [decide_eq_true_iff]; exact hc)]
      cases List.mem_cons.mp hy with
      | inl h =>
        subst h
        exact absurd hfy hc
      | inr h => exact ih b hnd.2 ⟨y, h, hfy⟩

/-- C5.  Tag idempotence: starting from a store satisfying the schema
invariant, one call `add_tags(pid, ts)` with `x ∈ ts` leaves exactly one
`tags` row named `x` and exactly one `(pid, tag-id-of-x)` association, and
repeating the same call changes nothing. -/
theorem C5_tag_idempotent (s : Store) (pid x : Str) (ts : List Str)
    (hwf : WF s) (hx : x ∈ ts) :
    ((add_tags s pid ts).tags.filter (fun t => decide (t.name = x))).length = 1 ∧
    (∃ tid, tagIdOf (add_tags s pid ts) x = some tid ∧
      ((add_tags s pid ts).paper_tags.filter
        (fun pr => decide (pr = (pid, tid)))).length = 1) ∧
    add_tags (add_tags s pid ts) pid ts = add_tags s pid ts := by
  obtain ⟨tid, h1, h2⟩ := add_tags_establishes pid x ts s hx
  obtain ⟨hnames, hids, hpairs, hbound⟩ := add_tags_WF pid ts s hwf
  refine ⟨?_, ⟨tid, h1, ?_⟩, ?_⟩
  · obtain ⟨y, hy, hyid⟩ := tagIdOf_elim _ x tid h1
    have hymem : y ∈ (add_tags s pid ts).tags := List.mem_of_find?_eq_some hy
    have hyname : y.name = x := by
      have hp := List.find?_some hy
      rwa [decide_eq_true_iff] at hp
    exact length_filter_key_eq_one (fun t => t.name) _ x hnames ⟨y, hymem, hyname⟩
  · refine length_filter_key_eq_one (fun pr => pr) _ (pid, tid) ?_ ⟨(pid, tid), h2, rfl⟩
    rw [show List.map (fun pr => pr) (add_tags s pid ts).paper_tags =
      (add_tags s pid ts).paper_tags from List.map_id _]
    exact hpairs
  · exact add_tags_idem_of_all_present pid ts (add_tags s pid ts)
      (fun t ht => add_tags_establishes pid t ts s ht)

/-- Witness for C5: adding `["x","x"]` to the empty store. -/
theorem C5_tag_idempotent_witness :
    (((add_tags storeE ("p1".data) ["x".data, "x".data]).tags.filter
      (fun t => decide (t.name = "x".data))).length = 1) ∧
    (∃ tid, tagIdOf (add_tags storeE ("p1".data) ["x".data, "x".data]) ("x".data) =
        some tid ∧
      ((add_tags storeE ("p1".data) ["x".data, "x".data]).paper_tags.filter
        (fun pr => decide (pr = (("p1".data), tid)))).length = 1) ∧
    add_tags (add_tags storeE ("p1".data) ["x".data, "x".data]) ("p1".data)
        ["x".data, "x".data] =
      add_tags storeE ("p1".data) ["x".data, "x".data] :=
  C5_tag_idempotent storeE ("p1".data) ("x".data) ["x".data, "x".data]
    (by decide) (by decide)

/-- C6.  `add_tags` atomicity and silence: with an explicit storage-failure
oracle, if any step of the batch fails the committed store is exactly the
store from before the call (the transaction is rolled back, nothing partial
persists, and the error is swallowed); if no step fails the full batch is
committed. -/
theorem C6_add_tags_atomic (s : Store) (pid : Str) (ts : List Str)
    (err : Nat → Bool) :
    ((∃ k, k < ts.length ∧ err k = true) → add_tags_withErr s pid ts err = s) ∧
    ((∀ k, k < ts.length → err k = false) →
      add_tags_withErr s pid ts err = add_tags s pid ts) := by
  constructor
  · rintro ⟨k, hk, he⟩
    rw [add_tags_withErr, add_tags_run_err pid err ts 0 s ⟨k, hk, by rwa [Nat.zero_add]⟩]
  · intro h
    rw [add_tags_withErr, add_tags_run_ok pid err ts 0 s
      (fun i hi => by rw [Nat.zero_add]; exact h i hi)]

/-- Witness for C6: a failure at step 0 leaves the store unchanged; no
failure commits the batch. -/
theorem C6_add_tags_atomic_witness :
    add_tags_withErr storeE ("p1".data) ["x".data] (fun k => decide (k = 0)) =
      storeE ∧
    add_tags_withErr storeE ("p1".data) ["x".data] (fun _ => false) =
      add_tags storeE ("p1".data) ["x".data] :=
  ⟨(C6_add_tags_atomic storeE ("p1".data) ["x".data] (fun k => decide (k = 0))).1
      ⟨0, by decide, by decide⟩,
   (C6_add_tags_atomic storeE ("p1".data) ["x".data] (fun _ => false)).2
      (fun _ _ => rfl)⟩

/-- C7 counterexample: `get_paper` opens a connection and never closes it
(there is no `conn.close()` anywhere in lines 104-128), so its connection
trace is unbalanced — refuting the claim that every operation releases its
connection on every exit path. -/
theorem C7_connection_scoping_cex :
    balancedConns (get_paper_traced storeA ("paper-1".data)).2 = false := by decide

/-- C7 (amended).  `add_paper`, `add_tags` and `update_paper` release their
connection on every modeled exit path (`finally: conn.close()`), and
`update_paper`'s early empty-update return opens no connection at all;
`search_papers` releases its connection on its (only modeled) success path;
but `get_paper` never closes the connection it opens. -/
theorem C7_connection_scoping_amended (s : Store) (now q pid pid2 pid3 : Str)
    (p : PaperInput) (ts : List Str) (err : Nat → Bool) (src fd : Option Str)
    (us : List (Str × UpdVal)) :
    balancedConns (add_paper_traced s now p).2 = true ∧
    balancedConns (add_tags_traced s pid ts err).2 = true ∧
    balancedConns (search_papers_traced s q src fd).2 = true ∧
    balancedConns (update_paper_traced s pid2 us).2 = true ∧
    (get_paper_traced s pid3).2 = [ConnEvent.opened] := by
  refine ⟨rfl, rfl, rfl, ?_, rfl⟩
  show balancedConns (if us.filter (fun u => decide (u.1 ∈ valid_fields)) = []
      then [] else [ConnEvent.opened, ConnEvent.closed]) = true
  split_ifs <;> rfl

/-- C8.  Wildcard leakage: the query is interpolated into the `LIKE`
pattern unescaped, so `%` in a query matches any character sequence
(formally: for wildcard-free `q1`, `q2`, the query `q1 ++ "%" ++ q2`
matches any string containing `q1` and then, anywhere later, `q2`, up to
ASCII case); concretely, query `"a%b"` returns the papers titled `"axb"`
and `"axxb"` even though `"a%b"` is not a literal substring of `"axb"`,
and `"a_b"` (one-character wildcard) matches `"axb"` but not `"axxb"`. -/
theorem C8_wildcard_leakage (q1 q2 : Str) (h1 : noWildcards q1)
    (h2 : noWildcards q2) :
    (∀ s : Str, likeMatch (mkLikePattern (q1 ++ '%' :: q2)) s = true ↔
      ∃ s1 s2 s3 s4 s5, s = s1 ++ s2 ++ s3 ++ s4 ++ s5 ∧
        s2.map lowerA = q1.map lowerA ∧ s4.map lowerA = q2.map lowerA) ∧
    search_papers storeW ("a%b".data) none none =
      [toRecord storeW rowAxb, toRecord storeW rowAxxb] ∧
    substringCI ("a%b".data) ("axb".data) = false ∧
    search_papers storeW ("a_b".data) none none = [toRecord storeW rowAxb] := by
  exact ⟨fun s => likeMatch_pct_mid_iff q1 q2 h1 h2 s, by decide, by decide, by decide⟩

/-- Witness for C8 with the wildcard-free blocks `"a"` and `"b"`. -/
theorem C8_wildcard_leakage_witness :
    (∀ s : Str, likeMatch (mkLikePattern (("a".data) ++ '%' :: ("b".data))) s = true ↔
      ∃ s1 s2 s3 s4 s5, s = s1 ++ s2 ++ s3 ++ s4 ++ s5 ∧
        s2.map lowerA = ("a".data).map lowerA ∧
        s4.map lowerA = ("b".data).map lowerA) ∧
    search_papers storeW ("a%b".data) none none =
      [toRecord storeW rowAxb, toRecord storeW rowAxxb] ∧
    substringCI ("a%b".data) ("axb".data) = false ∧
    search_papers storeW ("a_b".data) none none = [toRecord storeW rowAxb] :=
  C8_wildcard_leakage ("a".data) ("b".data) (by decide) (by decide)

/-- C9.  `error_log` never set at insert: `add_paper` omits `error_log`
from its INSERT column list, so after every successful `add_paper` the
stored paper's `error_log` is NULL even when the input supplies one; and
`add_tags` (the only other writing operation besides `update_paper`) never
touches the `papers` table. -/
theorem C9_error_log_never_inserted (s : Store) (now : Str) (p : PaperInput)
    (pid : Str) (ts : List Str) :
    ((add_paper s now p).1 = true →
      (get_paper (add_paper s now p).2 p.id).map (fun pr => pr.error_log) =
        some none) ∧
    (add_tags s pid ts).papers = s.papers := by
  constructor
  · intro h
    rw [add_paper_success_get s now p h, Option.map_some']
    rfl
  · exact add_tags_papers pid ts s

/-- Witness for C9: `inputA` supplies an `error_log` value, yet the stored
row's `error_log` is NULL. -/
theorem C9_error_log_never_inserted_witness :
    (get_paper (add_paper storeE now0 inputA).2 inputA.id).map
      (fun pr => pr.error_log) = some none ∧
    (add_tags storeE ("p1".data) ["x".data]).papers = storeE.papers :=
  ⟨(C9_error_log_never_inserted storeE now0 inputA ("p1".data) ["x".data]).1
      (by decide),
   (C9_error_log_never_inserted storeE now0 inputA ("p1".data) ["x".data]).2⟩

/-- C10.  Empty authors edge case: `add_paper` with an empty authors
sequence succeeds (the join of the empty sequence is the empty string,
which still satisfies NOT NULL), and `get_paper` then returns `authors ==
[""]` — a one-element sequence holding the empty string, not the empty
sequence that was supplied. -/
theorem C10_empty_authors (s : Store) (now : Str) (p : PaperInput)
    (hfresh : ∀ r ∈ s.papers, r.id ≠ p.id) (hempty : p.authors = []) :
    (add_paper s now p).1 = true ∧
    (get_paper (add_paper s now p).2 p.id).map (fun pr => pr.authors) =
      some [([] : Str)] := by
  have hany : s.papers.any (fun r => decide (r.id = p.id)) = false := by
    rw [List.any_eq_false]
    intro r hr
    simpa using hfresh r hr
  have hsucc : (add_paper s now p).1 = true := by
    rw [add_paper, if_neg (by rw [hany]; exact Bool.false_ne_true)]
  refine ⟨hsucc, ?_⟩
  rw [add_paper_success_get s now p hsucc, Option.map_some']
  show some (splitComma (joinComma p.authors)) = _
  rw [hempty]
  rfl

/-- Witness for C10: adding `inputB` (empty authors) to the empty store. -/
theorem C10_empty_authors_witness :
    (add_paper storeE now0 inputB).1 = true ∧
    (get_paper (add_paper storeE now0 inputB).2 inputB.id).map
      (fun pr => pr.authors) = some [([] : Str)] :=
  C10_empty_authors storeE now0 inputB (by decide) (by decide)
